import Mathlib

/-!
# Verification of the GPT integer-addition model (gpt_adder)

A shallow embedding of the data pipeline and the decoder-only transformer
of `gpt_adder.ipynb`, together with theorems settling the specification
claims about it.

Conventions of the embedding:
* Python floats are modelled as rationals `ℚ`; the two transcendental
  primitives the network uses (`exp` inside softmax, `sqrt` inside the
  attention scale and layer norm) are abstract parameters (`Prims`),
  since none of the claims depend on their values.
* Dropout layers are modelled in eval mode (identity), which is the mode
  all the behavioural claims speak about.
* `numpy` bounded random sampling is modelled by reducing an abstract
  entropy stream modulo the size of the requested half-open range, which
  reproduces exactly the range contract of `np.random.randint(low, high)`.
* Python runtime failures (assert, KeyError, IndexError, shape-mismatch)
  are modelled with `Except`.
-/

namespace GPTAdder

/-! ## Tokenizer (notebook cell: vocabulary / ctoi / itoc / encode / decode) -/

/-- The vocabulary literal as written in the source, before `sorted(...)`:
`['0','1','2','3','4','5','6','7','8','9','10','+','=','<START>','<END>','<PAD>']`.
Note the source really does contain the two-character string `'10'`. -/
def vocabRaw : List String :=
  ["0", "1", "2", "3", "4", "5", "6", "7", "8", "9", "10", "+", "=", "<START>", "<END>", "<PAD>"]

/-- `vocab = sorted(vocabRaw)`: the result of Python `sorted`, i.e. the
elements of `vocabRaw` in lexicographic (byte-order) ascending order.
`vocab_eq_sorted_vocabRaw` below checks this literal is that sort. -/
def vocab : List String :=
  ["+", "0", "1", "10", "2", "3", "4", "5", "6", "7", "8", "9", "<END>", "<PAD>", "<START>", "="]

/-- `vocab_size = len(vocab)` -/
def vocab_size : Nat := vocab.length

/-- Lexicographic byte-order comparison on character lists, the order Python
`sorted` uses on ASCII strings. Structural recursion so the kernel can
evaluate it. -/
def lexLe : List Char → List Char → Bool
  | [], _ => true
  | _ :: _, [] => false
  | a :: as, b :: bs =>
    if a.toNat < b.toNat then true
    else if a.toNat = b.toNat then lexLe as bs
    else false

/-- Boolean check that a list of strings is in ascending lexicographic order. -/
def sortedByLex : List String → Bool
  | [] => true
  | [_] => true
  | a :: b :: rest => lexLe a.data b.data && sortedByLex (b :: rest)

/-- `ctoi`: the dict `{vocab[i]: i}`, i.e. lookup of a symbol's index in
`vocab` (`none` models a `KeyError`). -/
def ctoi (s : String) : Option Nat := vocab.findIdx? (· = s)

/-- `itoc`: the dict `{i: vocab[i]}` (`none` models a `KeyError`). -/
def itoc (i : Nat) : Option String := vocab[i]?

/-- Tokenizer failures: the spec's `UnknownSymbolError` taxonomy for the
`KeyError`s that `ctoi`/`itoc` lookups can raise. -/
inductive TokenizerError where
  | unknownSymbol (s : String)
  | unknownId (i : Nat)
  deriving DecidableEq

/-- `encode = lambda s: [ctoi[c] for c in s]` -/
def encode : List String → Except TokenizerError (List Nat)
  | [] => .ok []
  | s :: rest =>
    match ctoi s with
    | some i => (encode rest).map (fun ids => i :: ids)
    | none => .error (.unknownSymbol s)

/-- `decode = lambda s: [itoc[ix] for ix in s]` -/
def decode : List Nat → Except TokenizerError (List String)
  | [] => .ok []
  | i :: rest =>
    match itoc i with
    | some s => (decode rest).map (fun ss => s :: ss)
    | none => .error (.unknownId i)

/-- Total symbol-to-id map on in-vocabulary symbols (`ctoi` with a dummy
default, used to describe the output of a successful `encode`). -/
def ctoiD (s : String) : Nat := (ctoi s).getD 0

/-! ## Batch generator (notebook cell: `generate_batch`) -/

/-- The decimal digit characters `'0'..'9'` as symbols, for building
`str(a)`. Values `≥ 10` never occur (`natDigitsGo` only applies this to
numbers `< 10`). -/
def digitStr : Nat → String
  | 0 => "0" | 1 => "1" | 2 => "2" | 3 => "3" | 4 => "4"
  | 5 => "5" | 6 => "6" | 7 => "7" | 8 => "8" | _ => "9"

/-- Fuel-driven digit expansion of a natural number, most significant digit
first (fuel keeps the recursion structural so the kernel can evaluate it;
any `fuel > n` gives the digits of `n`). -/
def natDigitsGo : Nat → Nat → List String
  | 0, _ => []
  | fuel + 1, n =>
    if n < 10 then [digitStr n]
    else natDigitsGo fuel (n / 10) ++ [digitStr (n % 10)]

/-- `list(str(n))`: decimal digits of `n`, most significant first
(`natDigits 0 = ["0"]`, matching Python `str(0)`). -/
def natDigits (n : Nat) : List String := natDigitsGo (n + 1) n

/-- `str.zfill`: left-pad a digit list with `"0"` up to width `d`
(no truncation when already longer). -/
def zfill (d : Nat) (l : List String) : List String :=
  List.replicate (d - l.length) "0" ++ l

/-- The problem string built for one example:
`['<START>'] + list(str(a).zfill(d)) + ['+'] + list(str(b).zfill(d)) + ['=']
+ answer + ['<END>']` where `answer = list(str(a+b).zfill(d+1))`, reversed
when `backward`. -/
def problemString (max_digits : Nat) (backward : Bool) (a b : Nat) : List String :=
  let prompt := ["<START>"] ++ zfill max_digits (natDigits a) ++ ["+"]
      ++ zfill max_digits (natDigits b) ++ ["="]
  let answer := zfill (max_digits + 1) (natDigits (a + b))
  let answer := if backward then answer.reverse else answer
  prompt ++ answer ++ ["<END>"]

/-- The problem string post-padded with `'<PAD>'` to length `block_size+1`:
`problem + ['<PAD>'] * (block_size+1-tot_len)`. -/
def paddedProblem (block_size max_digits : Nat) (backward : Bool) (a b : Nat) : List String :=
  let problem := problemString max_digits backward a b
  problem ++ List.replicate (block_size + 1 - problem.length) "<PAD>"

/-- `target[:2*max_digits+2] = -1`: replace every target id at an index
`< 2*max_digits+2` with the ignore sentinel `-1`; the remaining ids are
kept (as integers, since the sentinel lives outside the id range). -/
def maskTargets (max_digits : Nat) (t : List Nat) : List Int :=
  (List.range t.length).map fun i =>
    if i < 2 * max_digits + 2 then (-1 : Int) else (t.getD i 0 : Int)

/-- Failures of `generate_batch`: the failed block-size `assert` is the
spec's `ConfigError`; an out-of-vocabulary symbol during `encode` would be
a `KeyError` (never reachable for the strings the generator builds). -/
inductive BatchError where
  | configError
  | unknownSymbol
  deriving DecidableEq

/-- One `(input, target)` pair of the loop body of `generate_batch`, for
already-drawn operands `a`, `b`:
`input = problem[:block_size]`, `target = problem[1:block_size+1]`,
both tokenized, with the target prompt positions masked to `-1`. -/
def exampleRow (block_size max_digits : Nat) (backward : Bool) (a b : Nat) :
    Except BatchError (List Nat × List Int) := do
  let padded := paddedProblem block_size max_digits backward a b
  let input := padded.take block_size
  let target := (padded.drop 1).take block_size
  let inputIds ← (encode input).mapError fun _ => BatchError.unknownSymbol
  let targetIds ← (encode target).mapError fun _ => BatchError.unknownSymbol
  return (inputIds, maskTargets max_digits targetIds)

/-- Model of `np.random.randint(low, high)` (scalar): a value in the
half-open range `[low, high)`, obtained by reducing one draw `r` of an
abstract entropy stream modulo the range size. -/
def randint (low high r : Nat) : Nat := low + r % (high - low)

/-- The operand pair of loop iteration `i`:
`a, b = np.random.randint(0, 10**max_digits - 1, 2)`, fed by entropy
draws `2*i` and `2*i+1`. -/
def operandPair (entropy : Nat → Nat) (max_digits i : Nat) : Nat × Nat :=
  (randint 0 (10 ^ max_digits - 1) (entropy (2 * i)),
   randint 0 (10 ^ max_digits - 1) (entropy (2 * i + 1)))

/-- Run the per-example builder for loop indices `0 .. n-1`, collecting the
rows in order (the `for b in range(batch_size)` loop). -/
def collectRows (f : Nat → Except BatchError (List Nat × List Int)) :
    Nat → Except BatchError (List (List Nat × List Int))
  | 0 => .ok []
  | n + 1 => do
    let rows ← collectRows f n
    let r ← f n
    return rows ++ [r]

/-- `generate_batch(block_size, batch_size, max_digits, backward)`:
asserts `block_size >= 3*max_digits+7` (else `ConfigError`), then builds
`batch_size` examples with freshly drawn operands and stacks the inputs
and targets. -/
def generate_batch (entropy : Nat → Nat) (block_size batch_size max_digits : Nat)
    (backward : Bool) : Except BatchError (List (List Nat) × List (List Int)) :=
  if block_size < 3 * max_digits + 7 then .error .configError
  else do
    let rows ← collectRows
      (fun i =>
        let ab := operandPair entropy max_digits i
        exampleRow block_size max_digits backward ab.1 ab.2)
      batch_size
    return (rows.map Prod.fst, rows.map Prod.snd)

/-- The tokenized input row that `generate_batch` builds at batch index
`i` (used to state what the `.ok` result is). -/
def inputRowOf (entropy : Nat → Nat) (bs d : Nat) (bw : Bool) (i : Nat) : List Nat :=
  ((paddedProblem bs d bw (operandPair entropy d i).1 (operandPair entropy d i).2).take bs).map
    ctoiD

/-- The masked target row that `generate_batch` builds at batch index `i`. -/
def targetRowOf (entropy : Nat → Nat) (bs d : Nat) (bw : Bool) (i : Nat) : List Int :=
  maskTargets d
    ((((paddedProblem bs d bw (operandPair entropy d i).1 (operandPair entropy d i).2).drop
        1).take bs).map ctoiD)

/-! ## Numerical primitives of the network -/

/-- The transcendental primitives used by the network, kept abstract:
`expf` models `exp` (softmax), `sqrtf` models `sqrt` (attention scale,
layer-norm denominator). None of the claims depend on their values. -/
structure Prims where
  expf : ℚ → ℚ
  sqrtf : ℚ → ℚ

/-- The all-zero vector, the default used for out-of-range positions. -/
def zeroVec : Nat → ℚ := fun _ => 0

/-- Position `j` of a sequence of vectors (out-of-range gives `zeroVec`;
claims only inspect in-range positions). -/
def seqGetD (x : List (Nat → ℚ)) (j : Nat) : Nat → ℚ := x.getD j zeroVec

/-- `nn.Linear(inDim, outDim, bias=False)` applied to one vector. -/
def linearNoBias (w : Nat → Nat → ℚ) (inDim : Nat) (v : Nat → ℚ) : Nat → ℚ :=
  fun o => ∑ i ∈ Finset.range inDim, w o i * v i

/-- `nn.Linear(inDim, outDim)` (with bias) applied to one vector. -/
def linear (w : Nat → Nat → ℚ) (b : Nat → ℚ) (inDim : Nat) (v : Nat → ℚ) : Nat → ℚ :=
  fun o => (∑ i ∈ Finset.range inDim, w o i * v i) + b o

/-- `nn.LayerNorm` learned scale and shift. -/
structure LayerNormParams where
  gamma : Nat → ℚ
  beta : Nat → ℚ

/-- The default `nn.LayerNorm` epsilon `1e-5`. -/
def lnEps : ℚ := 1 / 100000

/-- `nn.LayerNorm(C)` on one position: normalize by mean and (biased)
variance over the `C` features, then scale and shift. -/
def layerNorm (P : Prims) (C : Nat) (p : LayerNormParams) (v : Nat → ℚ) : Nat → ℚ :=
  let μ := (∑ i ∈ Finset.range C, v i) / (C : ℚ)
  let σ2 := (∑ i ∈ Finset.range C, (v i - μ) ^ 2) / (C : ℚ)
  fun i => p.gamma i * ((v i - μ) / P.sqrtf (σ2 + lnEps)) + p.beta i

/-- Elementwise residual addition `x + y` of two sequences. -/
def addSeq (x y : List (Nat → ℚ)) : List (Nat → ℚ) :=
  List.zipWith (fun u w => fun i => u i + w i) x y

/-! ## MultiHeadAttention -/

/-- Parameters of `MultiHeadAttention(block_size, embedding_dim,
total_head_size, num_heads, dropout_rate)`: the `key`/`query`/`value`
projections (`bias=False`, weights shaped `(total_head_size,
embedding_dim)`) and the output projection `proj` (weights shaped
`(embedding_dim, total_head_size)`, with bias). The `tril` buffer is not a
field because the forward pass uses `is_causal=True` instead of reading it;
dropout is in eval mode (identity). -/
structure MultiHeadAttention where
  block_size : Nat
  embedding_dim : Nat
  total_head_size : Nat
  num_heads : Nat
  key : Nat → Nat → ℚ
  query : Nat → Nat → ℚ
  value : Nat → Nat → ℚ
  projW : Nat → Nat → ℚ
  projB : Nat → ℚ

namespace MultiHeadAttention

/-- `self.head_size = total_head_size // num_heads` -/
def head_size (sa : MultiHeadAttention) : Nat := sa.total_head_size / sa.num_heads

/-- `k = self.key(x)`: the key projection at position `j` (a vector of
length `total_head_size`; the head split reads chunk `i` at offsets
`i*head_size ..`). -/
def kseq (sa : MultiHeadAttention) (x : List (Nat → ℚ)) (j : Nat) : Nat → ℚ :=
  linearNoBias sa.key sa.embedding_dim (seqGetD x j)

/-- `q = self.query(x)` at position `t`. -/
def qseq (sa : MultiHeadAttention) (x : List (Nat → ℚ)) (t : Nat) : Nat → ℚ :=
  linearNoBias sa.query sa.embedding_dim (seqGetD x t)

/-- `v = self.value(x)` at position `j`. -/
def vseq (sa : MultiHeadAttention) (x : List (Nat → ℚ)) (j : Nat) : Nat → ℚ :=
  linearNoBias sa.value sa.embedding_dim (seqGetD x j)

/-- Scaled dot-product score of head `i`, query position `t`, key position
`j`: `⟨q_t, k_j⟩ / sqrt(head_size)` over that head's coordinate chunk
(the default scale of `F.scaled_dot_product_attention`). -/
def score (P : Prims) (sa : MultiHeadAttention) (x : List (Nat → ℚ)) (i t j : Nat) : ℚ :=
  (∑ a ∈ Finset.range sa.head_size,
      qseq sa x t (i * sa.head_size + a) * kseq sa x j (i * sa.head_size + a))
    / P.sqrtf (sa.head_size : ℚ)

/-- Causally masked softmax attention weight of head `i` at query position
`t` over key position `j` (`is_causal=True` semantics: weight `0` for
`j > t`, softmax over the allowed positions `j ≤ t` otherwise). -/
def weight (P : Prims) (sa : MultiHeadAttention) (x : List (Nat → ℚ)) (i t j : Nat) : ℚ :=
  if j ≤ t then
    P.expf (score P sa x i t j)
      / ∑ j' ∈ (Finset.range x.length).filter (fun j' => j' ≤ t), P.expf (score P sa x i t j')
  else 0

/-- Output coordinate `a` of head `i` at query position `t`: the
weight-averaged values `∑ j w_{t j} · v_j`. -/
def headOut (P : Prims) (sa : MultiHeadAttention) (x : List (Nat → ℚ)) (i t a : Nat) : ℚ :=
  ∑ j ∈ Finset.range x.length, weight P sa x i t j * vseq sa x j (i * sa.head_size + a)

/-- The heads concatenated back into one `total_head_size` vector at
position `t` (`out.view(B,T,total_head_size)`: global coordinate `m` is
coordinate `m % head_size` of head `m / head_size`). -/
def concatOut (P : Prims) (sa : MultiHeadAttention) (x : List (Nat → ℚ)) (t : Nat) : Nat → ℚ :=
  fun m => headOut P sa x (m / sa.head_size) t (m % sa.head_size)

/-- The attention output at position `t`: `self.proj` applied to the
concatenated head outputs (output dropout in eval mode is the identity). -/
def outAt (P : Prims) (sa : MultiHeadAttention) (x : List (Nat → ℚ)) (t : Nat) : Nat → ℚ :=
  linear sa.projW sa.projB sa.total_head_size (concatOut P sa x t)

/-- `MultiHeadAttention.forward` on one batch element: input `(T, C)`,
output `(T, C)`. -/
def forward (P : Prims) (sa : MultiHeadAttention) (x : List (Nat → ℚ)) : List (Nat → ℚ) :=
  (List.range x.length).map (outAt P sa x)

end MultiHeadAttention

/-! ## FeedForward -/

/-- Parameters of `FeedForward(embedding_dim, dropout_rate)`:
`Linear(C, 4C) → ReLU → Linear(4C, C) → Dropout` (dropout in eval mode). -/
structure FeedForward where
  embedding_dim : Nat
  w1 : Nat → Nat → ℚ
  b1 : Nat → ℚ
  w2 : Nat → Nat → ℚ
  b2 : Nat → ℚ

/-- `FeedForward.forward` on one position (the block is position-wise). -/
def FeedForward.forward (ff : FeedForward) (v : Nat → ℚ) : Nat → ℚ :=
  let h1 := linear ff.w1 ff.b1 ff.embedding_dim v
  let r : Nat → ℚ := fun i => max 0 (h1 i)
  linear ff.w2 ff.b2 (4 * ff.embedding_dim) r

/-! ## TransformerBlock -/

/-- Parameters of `TransformerBlock(block_size, embedding_dim, head_size,
num_heads, dropout_rate)`: attention `sa`, feed-forward `ff`, and the two
pre-norms `ln1`, `ln2` (both `LayerNorm(embedding_dim)`). -/
structure TransformerBlock where
  embedding_dim : Nat
  sa : MultiHeadAttention
  ff : FeedForward
  ln1 : LayerNormParams
  ln2 : LayerNormParams

/-- `TransformerBlock.forward`:
`x = x + self.sa(self.ln1(x)); x = x + self.ff(self.ln2(x))`. -/
def TransformerBlock.forward (P : Prims) (b : TransformerBlock) (x : List (Nat → ℚ)) :
    List (Nat → ℚ) :=
  let x1 := addSeq x (MultiHeadAttention.forward P b.sa (x.map (layerNorm P b.embedding_dim b.ln1)))
  addSeq x1 (x1.map fun v => b.ff.forward (layerNorm P b.embedding_dim b.ln2 v))

/-- `self.blocks = nn.Sequential(*[TransformerBlock(...) ...])` applied in
order. -/
def runBlocks (P : Prims) (bs : List TransformerBlock) (x : List (Nat → ℚ)) : List (Nat → ℚ) :=
  bs.foldl (fun a b => b.forward P a) x

/-! ## TransformerLanguageModel -/

/-- Parameters of `TransformerLanguageModel(vocab_size, block_size,
embedding_dim, head_size, num_heads, num_blocks, dropout_rate)`. Note
`lm_head = nn.Linear(head_size, vocab_size)`: its input dimension is the
constructor's `head_size` argument, not `embedding_dim`. -/
structure TransformerLanguageModel where
  vocab_size : Nat
  block_size : Nat
  embedding_dim : Nat
  head_size : Nat
  num_heads : Nat
  token_embedding : Nat → Nat → ℚ
  pos_embedding : Nat → Nat → ℚ
  blocks : List TransformerBlock
  ln_f : LayerNormParams
  lm_headW : Nat → Nat → ℚ
  lm_headB : Nat → ℚ

/-- Failures of the model's forward pass / generation loop:
* `badToken`: a token id `≥ vocab_size` (an `nn.Embedding` index error);
* `contextOverflow`: `T > block_size`, so `self.pos_embedding(arange(T))`
  indexes out of range — the spec's `ContextOverflowError`;
* `shapeMismatch`: `lm_head` (input dimension `head_size`) applied to a
  tensor whose last dimension is `embedding_dim ≠ head_size`;
* `emptySequence`: `logits[:,-1,:]` on a length-0 time axis. -/
inductive LMError where
  | badToken
  | contextOverflow
  | shapeMismatch
  | emptySequence
  deriving DecidableEq

namespace TransformerLanguageModel

/-- `token_embeds + pos_embeds`: the embedded input sequence
`(T, embedding_dim)`. -/
def embedSeq (m : TransformerLanguageModel) (idx : List Nat) : List (Nat → ℚ) :=
  (List.range idx.length).map fun t => fun i =>
    m.token_embedding (idx.getD t 0) i + m.pos_embedding t i

/-- `TransformerLanguageModel.forward` on one batch element (`targets`
omitted): token+position embedding, the block stack, `ln_f`, then
`lm_head`. Fails when a token id is out of embedding range, when
`T > block_size` (position embedding index error), or when the `lm_head`
matmul dimensions disagree (`embedding_dim ≠ head_size`). -/
def forward (P : Prims) (m : TransformerLanguageModel) (idx : List Nat) :
    Except LMError (List (Nat → ℚ)) :=
  if ¬ (∀ tok ∈ idx, tok < m.vocab_size) then .error .badToken
  else if m.block_size < idx.length then .error .contextOverflow
  else if m.embedding_dim = m.head_size then
    .ok (((runBlocks P m.blocks (m.embedSeq idx)).map
        (layerNorm P m.embedding_dim m.ln_f)).map
      (linear m.lm_headW m.lm_headB m.head_size))
  else .error .shapeMismatch

/-- `F.softmax` over the `n` vocabulary logits. -/
def softmaxDist (P : Prims) (n : Nat) (v : Nat → ℚ) : Nat → ℚ :=
  fun i => P.expf (v i) / ∑ j ∈ Finset.range n, P.expf (v j)

/-- One generation step on one batch row: crop the row to its last
`block_size` tokens, run the forward pass, softmax the logits of the final
position, and append one sampled token. `sampler step row probs` models
`torch.multinomial` (one draw per step per row). -/
def nextTokenRow (P : Prims) (m : TransformerLanguageModel)
    (sampler : Nat → Nat → (Nat → ℚ) → Nat) (step row : Nat) (r : List Nat) :
    Except LMError (List Nat) :=
  match m.forward P (r.drop (r.length - m.block_size)) with
  | .error e => .error e
  | .ok logits =>
    match logits.getLast? with
    | none => .error .emptySequence
    | some last => .ok (r ++ [sampler step row (softmaxDist P m.vocab_size last)])

/-- One generation step applied to every row of the batch, row index
threaded through for the sampler. -/
def stepRows (P : Prims) (m : TransformerLanguageModel)
    (sampler : Nat → Nat → (Nat → ℚ) → Nat) (step : Nat) :
    Nat → List (List Nat) → Except LMError (List (List Nat))
  | _, [] => .ok []
  | row, r :: rest =>
    match m.nextTokenRow P sampler step row r with
    | .error e => .error e
    | .ok r2 =>
      match stepRows P m sampler step (row + 1) rest with
      | .error e => .error e
      | .ok rest2 => .ok (r2 :: rest2)

/-- The `for _ in range(max_new_tokens)` loop of `generate`: repeat the
per-batch sampling step for the remaining number of new tokens. -/
def generateGo (P : Prims) (m : TransformerLanguageModel)
    (sampler : Nat → Nat → (Nat → ℚ) → Nat) :
    Nat → Nat → List (List Nat) → Except LMError (List (List Nat))
  | _, 0, rows => .ok rows
  | step, n + 1, rows =>
    match m.stepRows P sampler step 0 rows with
    | .error e => .error e
    | .ok rows2 => generateGo P m sampler (step + 1) n rows2

/-- The `nn.Module` train/eval flag. -/
inductive Mode where
  | train
  | eval
  deriving DecidableEq

/-- `TransformerLanguageModel.generate(idx, max_new_tokens)`, with the
module's train/eval mode made explicit. The code runs `self.eval()`,
the sampling loop, then unconditionally `self.train()`; when the loop
raises, the final `self.train()` never runs and the module is left in
eval mode. The result pairs the module's mode after the call with the
returned (or failed) extended batch. -/
def generate (P : Prims) (m : TransformerLanguageModel)
    (sampler : Nat → Nat → (Nat → ℚ) → Nat) (_priorMode : Mode)
    (idx : List (List Nat)) (max_new_tokens : Nat) :
    Mode × Except LMError (List (List Nat)) :=
  match generateGo P m sampler 0 max_new_tokens idx with
  | .ok out => (Mode.train, .ok out)
  | .error e => (Mode.eval, .error e)

end TransformerLanguageModel

/-! ## Small concrete instances (used by the witnesses) -/

/-- Concrete primitives for witnesses: any functions work, since no claim
depends on the values of `exp`/`sqrt`. -/
def primsW : Prims := ⟨fun q => q, fun q => q⟩

/-- A minimal well-formed model: one-symbol vocabulary, context window 2,
1-dimensional embedding and head, no transformer blocks. -/
def modelW : TransformerLanguageModel :=
  { vocab_size := 1, block_size := 2, embedding_dim := 1, head_size := 1, num_heads := 1,
    token_embedding := fun _ _ => 0, pos_embedding := fun _ _ => 0,
    blocks := [], ln_f := ⟨fun _ => 1, fun _ => 0⟩,
    lm_headW := fun _ _ => 1, lm_headB := fun _ => 0 }

/-- A concrete single-head attention layer (1-dimensional). -/
def saW : MultiHeadAttention :=
  { block_size := 2, embedding_dim := 1, total_head_size := 1, num_heads := 1,
    key := fun _ _ => 1, query := fun _ _ => 1, value := fun _ _ => 1,
    projW := fun _ _ => 1, projB := fun _ => 0 }

/-- A concrete feed-forward layer (1-dimensional). -/
def ffW : FeedForward :=
  { embedding_dim := 1, w1 := fun _ _ => 1, b1 := fun _ => 0,
    w2 := fun _ _ => 1, b2 := fun _ => 0 }

/-- A concrete transformer block built from `saW` and `ffW`. -/
def blockW : TransformerBlock :=
  { embedding_dim := 1, sa := saW, ff := ffW,
    ln1 := ⟨fun _ => 1, fun _ => 0⟩, ln2 := ⟨fun _ => 1, fun _ => 0⟩ }

/-- A two-symbol model with one transformer block. -/
def modelW2 : TransformerLanguageModel :=
  { vocab_size := 2, block_size := 2, embedding_dim := 1, head_size := 1, num_heads := 1,
    token_embedding := fun tok _ => (tok : ℚ), pos_embedding := fun t _ => (t : ℚ),
    blocks := [blockW], ln_f := ⟨fun _ => 1, fun _ => 0⟩,
    lm_headW := fun _ _ => 1, lm_headB := fun _ => 0 }

/-- Concrete input vectors for the attention causality witness. -/
def cW1 : Nat → ℚ := fun _ => 1

/-- A second concrete input vector. -/
def cW2 : Nat → ℚ := fun _ => 2

/-- A third concrete input vector (a perturbation of `cW2`). -/
def cW3 : Nat → ℚ := fun _ => 3

/-- The logits `modelW2` produces on the input `[0, 0]`. -/
def lgW1 : List (Nat → ℚ) :=
  match modelW2.forward primsW [0, 0] with
  | .ok v => v
  | .error _ => []

/-- The logits `modelW2` produces on the input `[0, 1]` (the second
position perturbed relative to `[0, 0]`). -/
def lgW2 : List (Nat → ℚ) :=
  match modelW2.forward primsW [0, 1] with
  | .ok v => v
  | .error _ => []

/-! ## Helper lemmas: tokenizer -/

/-- The `vocab` literal is exactly `sorted(vocabRaw)`: a permutation of the
raw list, in ascending lexicographic order. -/
theorem vocab_eq_sorted_vocabRaw : vocab.Perm vocabRaw ∧ sortedByLex vocab = true := by
  constructor
  · decide
  · decide

theorem ctoi_eq_none_of_not_mem (s : String) (hs : s ∉ vocab) : ctoi s = none := by
  rw [ctoi, List.findIdx?_eq_none_iff]
  intro x hx
  simp only [decide_eq_false_iff_not]
  intro h
  exact hs (h ▸ hx)

theorem ctoi_isSome_of_mem {s : String} (hs : s ∈ vocab) : (ctoi s).isSome := by
  rw [Option.isSome_iff_ne_none]
  intro hnone
  rw [ctoi, List.findIdx?_eq_none_iff] at hnone
  have := hnone s hs
  simp at this

theorem encode_eq_ok {l : List String} (h : ∀ s ∈ l, s ∈ vocab) :
    encode l = .ok (l.map ctoiD) := by
  induction l with
  | nil => rfl
  | cons s rest ih =>
    have hs := ctoi_isSome_of_mem (h s (by simp))
    obtain ⟨i, hi⟩ := Option.isSome_iff_exists.mp hs
    rw [encode, hi, ih (fun x hx => h x (by simp [hx]))]
    simp [Except.map, ctoiD, hi]

/-! ## Helper lemmas: digits and lengths -/

theorem digitStr_mem_vocab (k : Nat) : digitStr k ∈ vocab := by
  unfold digitStr
  split <;> decide

theorem natDigitsGo_subset_vocab : ∀ fuel n, ∀ s ∈ natDigitsGo fuel n, s ∈ vocab := by
  intro fuel
  induction fuel with
  | zero => intro n s hs; simp [natDigitsGo] at hs
  | succ fuel ih =>
    intro n s hs
    rw [natDigitsGo] at hs
    split at hs
    · simp only [List.mem_singleton] at hs
      exact hs ▸ digitStr_mem_vocab n
    · rw [List.mem_append] at hs
      rcases hs with h | h
      · exact ih _ s h
      · simp only [List.mem_singleton] at h
        exact h ▸ digitStr_mem_vocab _

theorem natDigits_subset_vocab (n : Nat) : ∀ s ∈ natDigits n, s ∈ vocab :=
  natDigitsGo_subset_vocab (n + 1) n

theorem natDigitsGo_length_le :
    ∀ fuel n k, n < fuel → 1 ≤ k → n < 10 ^ k → (natDigitsGo fuel n).length ≤ k := by
  intro fuel
  induction fuel with
  | zero => intro n k hn; omega
  | succ fuel ih =>
    intro n k hn hk hnk
    rw [natDigitsGo]
    split
    · simpa using hk
    · rename_i hn10
      push_neg at hn10
      have hk2 : 2 ≤ k := by
        by_contra hlt
        have : k = 1 := by omega
        subst this
        simp at hnk
        omega
      have hdiv : n / 10 < fuel := by
        have : n / 10 < n := Nat.div_lt_self (by omega) (by norm_num)
        omega
      have hpow : n / 10 < 10 ^ (k - 1) := by
        rw [Nat.div_lt_iff_lt_mul (by norm_num)]
        have : 10 ^ (k - 1) * 10 = 10 ^ k := by
          rw [← pow_succ]
          congr 1
          omega
        omega
      have := ih (n / 10) (k - 1) hdiv (by omega) hpow
      simp only [List.length_append, List.length_singleton]
      omega

theorem natDigits_length_le {n k : Nat} (hk : 1 ≤ k) (hn : n < 10 ^ k) :
    (natDigits n).length ≤ k :=
  natDigitsGo_length_le (n + 1) n k (Nat.lt_succ_self n) hk hn

theorem zfill_length {d : Nat} {l : List String} (h : l.length ≤ d) :
    (zfill d l).length = d := by
  simp [zfill]
  omega

theorem problemString_length {d : Nat} (bw : Bool) {a b : Nat} (hd : 1 ≤ d)
    (ha : a < 10 ^ d) (hb : b < 10 ^ d) :
    (problemString d bw a b).length = 3 * d + 5 := by
  have hza := zfill_length (natDigits_length_le hd ha)
  have hzb := zfill_length (natDigits_length_le hd hb)
  have hab : a + b < 10 ^ (d + 1) := by
    have : 10 ^ (d + 1) = 10 ^ d * 10 := by rw [pow_succ]
    omega
  have hzc := zfill_length (natDigits_length_le (Nat.le_add_left 1 d) hab)
  cases bw <;>
    simp [problemString, List.length_append, hza, hzb, hzc] <;>
    omega

theorem problemString_subset_vocab (d : Nat) (bw : Bool) (a b : Nat) :
    ∀ s ∈ problemString d bw a b, s ∈ vocab := by
  have hz : ∀ m n s, s ∈ zfill m (natDigits n) → s ∈ vocab := by
    intro m n s hmem
    rw [zfill, List.mem_append] at hmem
    rcases hmem with h | h
    · rw [List.eq_of_mem_replicate h]; decide
    · exact natDigits_subset_vocab n s h
  intro s hs
  simp only [problemString] at hs
  rw [List.mem_append, List.mem_append, List.mem_append, List.mem_append,
    List.mem_append, List.mem_append] at hs
  rcases hs with (((((h | h) | h) | h) | h) | h) | h
  · rw [List.mem_singleton] at h; subst h; decide
  · exact hz _ _ _ h
  · rw [List.mem_singleton] at h; subst h; decide
  · exact hz _ _ _ h
  · rw [List.mem_singleton] at h; subst h; decide
  · cases bw with
    | false =>
        rw [if_neg (by decide)] at h
        exact hz _ _ _ h
    | true =>
        rw [if_pos rfl, List.mem_reverse] at h
        exact hz _ _ _ h
  · rw [List.mem_singleton] at h; subst h; decide

theorem paddedProblem_subset_vocab (bs d : Nat) (bw : Bool) (a b : Nat) :
    ∀ s ∈ paddedProblem bs d bw a b, s ∈ vocab := by
  intro s hs
  rw [paddedProblem, List.mem_append] at hs
  rcases hs with h | h
  · exact problemString_subset_vocab d bw a b s h
  · rw [List.eq_of_mem_replicate h]; decide

theorem paddedProblem_length {bs d : Nat} (bw : Bool) {a b : Nat} (hd : 1 ≤ d)
    (hbs : 3 * d + 7 ≤ bs) (ha : a < 10 ^ d) (hb : b < 10 ^ d) :
    (paddedProblem bs d bw a b).length = bs + 1 := by
  have hlen := problemString_length bw hd ha hb
  simp [paddedProblem, List.length_append, hlen]
  omega

/-! ## Helper lemmas: list indexing -/

theorem getD_range_map {β : Type} {n j : Nat} (f : Nat → β) (dflt : β) (hj : j < n) :
    ((List.range n).map f).getD j dflt = f j := by
  rw [List.getD_eq_getElem _ _ (by simpa using hj)]
  simp

theorem getD_range_map_ge {β : Type} {n j : Nat} (f : Nat → β) (dflt : β) (hj : n ≤ j) :
    ((List.range n).map f).getD j dflt = dflt :=
  List.getD_eq_default _ _ (by simpa using hj)

theorem getD_map_of_lt {α β : Type} (f : α → β) (l : List α) (dfa : α) (dfb : β)
    {j : Nat} (hj : j < l.length) : (l.map f).getD j dfb = f (l.getD j dfa) := by
  rw [List.getD_eq_getElem _ _ (by simpa using hj), List.getD_eq_getElem _ _ hj,
    List.getElem_map]

/-! ## Success of `generate_batch` -/

theorem exampleRow_eq_ok (bs d : Nat) (bw : Bool) (a b : Nat) :
    exampleRow bs d bw a b = .ok
      (((paddedProblem bs d bw a b).take bs).map ctoiD,
        maskTargets d ((((paddedProblem bs d bw a b).drop 1).take bs).map ctoiD)) := by
  have h1 : ∀ s ∈ (paddedProblem bs d bw a b).take bs, s ∈ vocab := fun s hs =>
    paddedProblem_subset_vocab bs d bw a b s (List.mem_of_mem_take hs)
  have h2 : ∀ s ∈ ((paddedProblem bs d bw a b).drop 1).take bs, s ∈ vocab := fun s hs =>
    paddedProblem_subset_vocab bs d bw a b s (List.mem_of_mem_drop (List.mem_of_mem_take hs))
  simp only [exampleRow, encode_eq_ok h1, encode_eq_ok h2]
  rfl

theorem collectRows_eq_ok {f : Nat → Except BatchError (List Nat × List Int)}
    {g : Nat → List Nat × List Int} (h : ∀ i, f i = .ok (g i)) :
    ∀ n, collectRows f n = .ok ((List.range n).map g) := by
  intro n
  induction n with
  | zero => rfl
  | succ n ih =>
    rw [collectRows, ih, h n]
    simp [List.range_succ]
    rfl

theorem generate_batch_eq_ok (entropy : Nat → Nat) {bs : Nat} (n : Nat) {d : Nat} (bw : Bool)
    (hbs : 3 * d + 7 ≤ bs) :
    generate_batch entropy bs n d bw = .ok
      ((List.range n).map (inputRowOf entropy bs d bw),
        (List.range n).map (targetRowOf entropy bs d bw)) := by
  rw [generate_batch, if_neg (by omega)]
  have h : ∀ i, (fun i =>
      let ab := operandPair entropy d i
      exampleRow bs d bw ab.1 ab.2) i =
      .ok (inputRowOf entropy bs d bw i, targetRowOf entropy bs d bw i) := by
    intro i
    simp only [inputRowOf, targetRowOf]
    exact exampleRow_eq_ok bs d bw _ _
  rw [collectRows_eq_ok h n]
  simp [List.map_map]

theorem pow10_ge {d : Nat} (hd : 1 ≤ d) : 10 ≤ 10 ^ d := by
  calc 10 = 10 ^ 1 := (pow_one 10).symm
    _ ≤ 10 ^ d := Nat.pow_le_pow_right (by norm_num) hd

theorem randint_lt {low high r : Nat} (h : low < high) : randint low high r < high := by
  rw [randint]
  have := Nat.mod_lt r (show 0 < high - low by omega)
  omega

theorem operandPair_lt (entropy : Nat → Nat) {d : Nat} (i : Nat) (hd : 1 ≤ d) :
    (operandPair entropy d i).1 < 10 ^ d ∧ (operandPair entropy d i).2 < 10 ^ d := by
  have h10 := pow10_ge hd
  constructor <;>
    · have := @randint_lt 0 (10 ^ d - 1) (entropy (2 * i)) (by omega)
      have := @randint_lt 0 (10 ^ d - 1) (entropy (2 * i + 1)) (by omega)
      simp only [operandPair]
      omega

theorem getD_take_of_lt {α : Type} (l : List α) (dflt : α) {bs j : Nat} (hj : j < bs)
    (hl : j < l.length) : (l.take bs).getD j dflt = l.getD j dflt := by
  rw [List.getD_eq_getElem _ _ (by simp [List.length_take]; omega),
    List.getD_eq_getElem _ _ hl, List.getElem_take]

theorem getD_drop_one {α : Type} (l : List α) (dflt : α) {j : Nat} (hl : 1 + j < l.length) :
    (l.drop 1).getD j dflt = l.getD (1 + j) dflt := by
  rw [List.getD_eq_getElem _ _ (by simp [List.length_drop]; omega),
    List.getD_eq_getElem _ _ hl, List.getElem_drop]

/-- The symbol at index `2*max_digits+2` of the padded problem string is
the `'='` separator (index: 1 for `'<START>'`, `max_digits` digits of `a`,
1 for `'+'`, `max_digits` digits of `b`). -/
theorem paddedProblem_getD_eq_sign {bs d : Nat} (bw : Bool) {a b : Nat} (hd : 1 ≤ d)
    (ha : a < 10 ^ d) (hb : b < 10 ^ d) :
    (paddedProblem bs d bw a b).getD (2 * d + 2) "" = "=" := by
  have hza := zfill_length (natDigits_length_le hd ha)
  have hzb := zfill_length (natDigits_length_le hd hb)
  have hplen := problemString_length bw hd ha hb
  have hidx : 2 * d + 2 < (problemString d bw a b).length := by omega
  rw [paddedProblem]
  rw [List.getD_eq_getElem _ _ (by simp only [List.length_append]; omega)]
  rw [List.getElem_append_left (by omega)]
  simp only [problemString]
  rw [List.getElem_append_left (by simp only [List.length_append,
    List.length_singleton, List.length_cons, List.length_nil, hza, hzb]; omega)]
  rw [List.getElem_append_left (by simp only [List.length_append,
    List.length_singleton, List.length_cons, List.length_nil, hza, hzb]; omega)]
  rw [List.getElem_append_right (by simp only [List.length_append,
    List.length_singleton, List.length_cons, List.length_nil, hza, hzb]; omega)]
  exact List.getElem_singleton _ _

theorem maskTargets_length (d : Nat) (t : List Nat) : (maskTargets d t).length = t.length := by
  simp [maskTargets]

theorem maskTargets_getD (d : Nat) (t : List Nat) {j : Nat} (hj : j < t.length) :
    (maskTargets d t).getD j 0 = if j < 2 * d + 2 then (-1 : Int) else (t.getD j 0 : Int) := by
  rw [maskTargets, getD_range_map _ _ hj]

/-- Everything C5 needs about one `(input, target)` row of the batch. -/
theorem generate_batch_row_facts (entropy : Nat → Nat) {bs d : Nat} (bw : Bool) (i : Nat)
    (hd : 1 ≤ d) (hbs : 3 * d + 7 ≤ bs) :
    (inputRowOf entropy bs d bw i).length = bs ∧
    (targetRowOf entropy bs d bw i).length = bs ∧
    (inputRowOf entropy bs d bw i).getD (2 * d + 2) 0 = ctoiD "=" ∧
    (∀ j, j ≤ 2 * d + 1 → (targetRowOf entropy bs d bw i).getD j 0 = -1) ∧
    (∀ j, 2 * d + 2 ≤ j → j < bs → 0 ≤ (targetRowOf entropy bs d bw i).getD j 0) ∧
    (∀ j, 2 * d + 2 ≤ j → j + 1 < bs →
      (targetRowOf entropy bs d bw i).getD j 0 =
        ((inputRowOf entropy bs d bw i).getD (j + 1) 0 : Int)) := by
  obtain ⟨ha, hb⟩ := operandPair_lt entropy i hd
  have hpp := paddedProblem_length bw hd hbs ha hb
  have hxlen : (inputRowOf entropy bs d bw i).length = bs := by
    rw [inputRowOf, List.length_map, List.length_take, hpp]; omega
  have htlen :
      ((((paddedProblem bs d bw (operandPair entropy d i).1 (operandPair entropy d i).2).drop
        1).take bs).map ctoiD).length = bs := by
    rw [List.length_map, List.length_take, List.length_drop, hpp]; omega
  have hylen : (targetRowOf entropy bs d bw i).length = bs := by
    rw [targetRowOf, maskTargets_length, htlen]
  have hxget : ∀ j, j < bs → (inputRowOf entropy bs d bw i).getD j 0 =
      ctoiD ((paddedProblem bs d bw (operandPair entropy d i).1
        (operandPair entropy d i).2).getD j "") := by
    intro j hj
    rw [inputRowOf, getD_map_of_lt ctoiD _ "" _ (by rw [List.length_take, hpp]; omega),
      getD_take_of_lt _ _ hj (by omega)]
  have hyget : ∀ j, j < bs → (targetRowOf entropy bs d bw i).getD j 0 =
      if j < 2 * d + 2 then (-1 : Int)
      else ((ctoiD ((paddedProblem bs d bw (operandPair entropy d i).1
        (operandPair entropy d i).2).getD (1 + j) "") : Nat) : Int) := by
    intro j hj
    rw [targetRowOf, maskTargets_getD d _ (by rw [htlen]; omega)]
    rcases Nat.lt_or_ge j (2 * d + 2) with hcase | hcase
    · rw [if_pos hcase, if_pos hcase]
    · rw [if_neg (by omega), if_neg (by omega)]
      rw [getD_map_of_lt ctoiD _ "" _ (by rw [List.length_take, List.length_drop, hpp]; omega),
        getD_take_of_lt _ _ hj (by rw [List.length_drop, hpp]; omega),
        getD_drop_one _ _ (by omega)]
  refine ⟨hxlen, hylen, ?_, ?_, ?_, ?_⟩
  · rw [hxget (2 * d + 2) (by omega),
      paddedProblem_getD_eq_sign bw hd ha hb]
  · intro j hj
    rw [hyget j (by omega), if_pos (by omega)]
  · intro j hj1 hj2
    rw [hyget j hj2, if_neg (by omega)]
    exact Int.natCast_nonneg _
  · intro j hj1 hj2
    rw [hyget j (by omega), if_neg (by omega), hxget (j + 1) hj2,
      Nat.add_comm 1 j]

/-! ## The claims about the batch generator and tokenizer -/

/-- C4 (evidence for the code bug): the vocabulary the code constructs has
16 distinct symbols — the claimed 15 plus the extraneous two-character
string `"10"` that sits in the source's vocabulary literal. -/
theorem vocab_has_sixteen_symbols_including_ten :
    vocab.length = 16 ∧ "10" ∈ vocab ∧ vocab.Nodup :=
  ⟨rfl, by decide, by decide⟩

/-- C8: tokenizer round trip — encoding then decoding any in-vocabulary
symbol gives it back, and `encode` fails with `UnknownSymbolError` on any
symbol absent from the vocabulary. -/
theorem tokenizer_round_trip (s t : String) (hs : s ∈ vocab) (ht : t ∉ vocab) :
    (encode [s]).bind decode = .ok [s] ∧
      encode [t] = .error (.unknownSymbol t) := by
  constructor
  · fin_cases hs <;> rfl
  · simp only [encode, ctoi_eq_none_of_not_mem t ht]

theorem tokenizer_round_trip_witness :
    ("0" ∈ vocab ∧ "x" ∉ vocab) ∧
      ((encode ["0"]).bind decode = .ok ["0"] ∧
        encode ["x"] = .error (.unknownSymbol "x")) :=
  ⟨⟨by decide, by decide⟩, tokenizer_round_trip "0" "x" (by decide) (by decide)⟩

/-- C10: the operands drawn inside `generate_batch` (via
`np.random.randint(0, 10**max_digits - 1, 2)`, whose upper bound is
exclusive) always lie in `[0, 10^max_digits - 2]`; the all-nines value
`10^max_digits - 1` is never generated. -/
theorem operands_never_all_nines (entropy : Nat → Nat) (d i : Nat) (hd : 1 ≤ d) :
    (operandPair entropy d i).1 ≤ 10 ^ d - 2 ∧ (operandPair entropy d i).2 ≤ 10 ^ d - 2 ∧
    (operandPair entropy d i).1 ≠ 10 ^ d - 1 ∧ (operandPair entropy d i).2 ≠ 10 ^ d - 1 := by
  have h10 := pow10_ge hd
  have h1 : (operandPair entropy d i).1 < 10 ^ d - 1 :=
    randint_lt (by omega)
  have h2 : (operandPair entropy d i).2 < 10 ^ d - 1 :=
    randint_lt (by omega)
  omega

theorem operands_never_all_nines_witness :
    1 ≤ 2 ∧
      ((operandPair (fun _ => 5) 2 0).1 ≤ 10 ^ 2 - 2 ∧
        (operandPair (fun _ => 5) 2 0).2 ≤ 10 ^ 2 - 2 ∧
        (operandPair (fun _ => 5) 2 0).1 ≠ 10 ^ 2 - 1 ∧
        (operandPair (fun _ => 5) 2 0).2 ≠ 10 ^ 2 - 1) :=
  ⟨by decide, operands_never_all_nines (fun _ => 5) 2 0 (by decide)⟩

/-- C6: `generate_batch` fails with `ConfigError` exactly when
`block_size < 3*max_digits + 7`, and the size check passes (the call
returns a batch) for every `block_size ≥ 3*max_digits + 7`. Stated for
`max_digits ≥ 1`, the domain on which the source runs at all: at
`max_digits = 0` the operand draw `np.random.randint(0, 10**0 - 1, 2)`
itself raises (empty range), which the entropy-stream model of `randint`
does not capture. -/
theorem generate_batch_block_size_check (entropy : Nat → Nat) (bs n d : Nat) (bw : Bool)
    (hd : 1 ≤ d) :
    (generate_batch entropy bs n d bw = .error .configError ↔ bs < 3 * d + 7) ∧
    (3 * d + 7 ≤ bs → ∃ out, generate_batch entropy bs n d bw = .ok out) := by
  constructor
  · constructor
    · intro h
      by_contra hge
      rw [generate_batch_eq_ok entropy n bw (by omega)] at h
      simp at h
    · intro h
      rw [generate_batch, if_pos h]
  · intro h
    exact ⟨_, generate_batch_eq_ok entropy n bw h⟩

theorem generate_batch_block_size_check_witness :
    (1 ≤ 1) ∧
    ((generate_batch (fun _ => 0) 9 1 1 false = .error .configError ↔ 9 < 3 * 1 + 7) ∧
      (3 * 1 + 7 ≤ 9 → ∃ out, generate_batch (fun _ => 0) 9 1 1 false = .ok out)) ∧
    ((generate_batch (fun _ => 0) 10 1 1 false = .error .configError ↔ 10 < 3 * 1 + 7) ∧
      (3 * 1 + 7 ≤ 10 → ∃ out, generate_batch (fun _ => 0) 10 1 1 false = .ok out)) :=
  ⟨by decide,
    generate_batch_block_size_check (fun _ => 0) 9 1 1 false (by decide),
    generate_batch_block_size_check (fun _ => 0) 10 1 1 false (by decide)⟩

/-- C5: in every batch `generate_batch` produces, each target row is the
input row shifted left by one position, except that exactly the target
positions up to and including the `'='` symbol (target indices
`0 .. 2*max_digits+1`; the `'='` sits at input index `2*max_digits+2`)
hold the ignore sentinel `-1`, and no later position holds `-1`. -/
theorem generate_batch_targets_shifted_and_masked (entropy : Nat → Nat)
    (bs n d : Nat) (bw : Bool) (hd : 1 ≤ d) (hbs : 3 * d + 7 ≤ bs) :
    ∃ xs ys, generate_batch entropy bs n d bw = .ok (xs, ys) ∧
      xs.length = n ∧ ys.length = n ∧
      ∀ i, i < n →
        (xs.getD i []).length = bs ∧ (ys.getD i []).length = bs ∧
        (xs.getD i []).getD (2 * d + 2) 0 = ctoiD "=" ∧
        (∀ j, j ≤ 2 * d + 1 → (ys.getD i []).getD j 0 = -1) ∧
        (∀ j, 2 * d + 2 ≤ j → j < bs → 0 ≤ (ys.getD i []).getD j 0) ∧
        (∀ j, 2 * d + 2 ≤ j → j + 1 < bs →
          (ys.getD i []).getD j 0 = ((xs.getD i []).getD (j + 1) 0 : Int)) := by
  refine ⟨_, _, generate_batch_eq_ok entropy n bw hbs, by simp, by simp, ?_⟩
  intro i hi
  rw [getD_range_map _ _ hi, getD_range_map _ _ hi]
  exact generate_batch_row_facts entropy bw i hd hbs

theorem generate_batch_targets_witness :
    (1 ≤ 1 ∧ 3 * 1 + 7 ≤ 12) ∧
      (∃ xs ys, generate_batch (fun k => k + 3) 12 2 1 true = .ok (xs, ys) ∧
        xs.length = 2 ∧ ys.length = 2 ∧
        ∀ i, i < 2 →
          (xs.getD i []).length = 12 ∧ (ys.getD i []).length = 12 ∧
          (xs.getD i []).getD (2 * 1 + 2) 0 = ctoiD "=" ∧
          (∀ j, j ≤ 2 * 1 + 1 → (ys.getD i []).getD j 0 = -1) ∧
          (∀ j, 2 * 1 + 2 ≤ j → j < 12 → 0 ≤ (ys.getD i []).getD j 0) ∧
          (∀ j, 2 * 1 + 2 ≤ j → j + 1 < 12 →
            (ys.getD i []).getD j 0 = ((xs.getD i []).getD (j + 1) 0 : Int))) :=
  ⟨⟨by decide, by decide⟩,
    generate_batch_targets_shifted_and_masked (fun k => k + 3) 12 2 1 true
      (by decide) (by decide)⟩

/-! ## Helper lemmas: model shapes -/

theorem length_mha_forward (P : Prims) (sa : MultiHeadAttention)
    (x : List (Nat → ℚ)) : (sa.forward P x).length = x.length := by
  simp [MultiHeadAttention.forward]

theorem length_addSeq (x y : List (Nat → ℚ)) :
    (addSeq x y).length = min x.length y.length := by
  simp [addSeq]

theorem length_block_forward (P : Prims) (b : TransformerBlock)
    (x : List (Nat → ℚ)) : (b.forward P x).length = x.length := by
  simp [TransformerBlock.forward, length_addSeq, length_mha_forward]

theorem length_runBlocks (P : Prims) (blocks : List TransformerBlock)
    (x : List (Nat → ℚ)) : (runBlocks P blocks x).length = x.length := by
  induction blocks generalizing x with
  | nil => rfl
  | cons b rest ih =>
    rw [runBlocks, List.foldl_cons]
    rw [show rest.foldl (fun a bl => bl.forward P a) (b.forward P x) =
      runBlocks P rest (b.forward P x) from rfl]
    rw [ih, length_block_forward]

theorem TransformerLanguageModel.length_embedSeq (m : TransformerLanguageModel)
    (idx : List Nat) : (m.embedSeq idx).length = idx.length := by
  simp [TransformerLanguageModel.embedSeq]

/-- The logits list a successful forward pass returns. -/
def TransformerLanguageModel.logitsOf (P : Prims) (m : TransformerLanguageModel)
    (idx : List Nat) : List (Nat → ℚ) :=
  ((runBlocks P m.blocks (m.embedSeq idx)).map (layerNorm P m.embedding_dim m.ln_f)).map
    (linear m.lm_headW m.lm_headB m.head_size)

theorem TransformerLanguageModel.length_logitsOf (P : Prims)
    (m : TransformerLanguageModel) (idx : List Nat) :
    (m.logitsOf P idx).length = idx.length := by
  simp [TransformerLanguageModel.logitsOf, length_runBlocks,
    TransformerLanguageModel.length_embedSeq]

theorem TransformerLanguageModel.forward_eq_ok (P : Prims) (m : TransformerLanguageModel)
    {idx : List Nat} (hv : ∀ tok ∈ idx, tok < m.vocab_size)
    (hT : idx.length ≤ m.block_size) (hdim : m.embedding_dim = m.head_size) :
    m.forward P idx = .ok (m.logitsOf P idx) := by
  rw [TransformerLanguageModel.forward, if_neg (not_not_intro hv), if_neg (by omega),
    if_pos hdim]
  rfl

theorem TransformerLanguageModel.forward_ok_inv {P : Prims}
    {m : TransformerLanguageModel} {idx : List Nat} {lg : List (Nat → ℚ)}
    (h : m.forward P idx = .ok lg) :
    lg = m.logitsOf P idx ∧ (∀ tok ∈ idx, tok < m.vocab_size) ∧
      idx.length ≤ m.block_size ∧ m.embedding_dim = m.head_size := by
  rw [TransformerLanguageModel.forward] at h
  split at h
  · simp at h
  · split at h
    · simp at h
    · split at h
      · rename_i hv hT hdim
        refine ⟨(Except.ok.inj h).symm, by simpa using hv, by omega, hdim⟩
      · simp at h

/-! ## C7 and C9: forward-pass error behaviour -/

/-- C7: the forward pass fails with `ContextOverflowError` exactly when
the input length exceeds the configured context window (on any batch of
in-range token ids). -/
theorem forward_context_overflow_iff (P : Prims) (m : TransformerLanguageModel)
    (idx : List Nat) (hv : ∀ tok ∈ idx, tok < m.vocab_size) :
    m.forward P idx = .error .contextOverflow ↔ m.block_size < idx.length := by
  rw [TransformerLanguageModel.forward, if_neg (not_not_intro hv)]
  rcases Nat.lt_or_ge m.block_size idx.length with h | h
  · rw [if_pos h]
    simp [h]
  · rw [if_neg (by omega)]
    constructor
    · intro hcontra
      split at hcontra <;> simp at hcontra
    · intro hlt
      omega

theorem forward_context_overflow_witness :
    ((∀ tok ∈ ([0, 0, 0] : List Nat), tok < modelW.vocab_size) ∧
      (∀ tok ∈ ([0, 0] : List Nat), tok < modelW.vocab_size)) ∧
    (modelW.forward primsW [0, 0, 0] = .error .contextOverflow ↔
      modelW.block_size < ([0, 0, 0] : List Nat).length) ∧
    (modelW.forward primsW [0, 0] = .error .contextOverflow ↔
      modelW.block_size < ([0, 0] : List Nat).length) :=
  ⟨⟨by decide, by decide⟩,
    forward_context_overflow_iff primsW modelW [0, 0, 0] (by decide),
    forward_context_overflow_iff primsW modelW [0, 0] (by decide)⟩

/-- C9: because `lm_head = nn.Linear(head_size, vocab_size)` consumes the
`embedding_dim`-wide final hidden states, the forward pass completes (with
one logit vector per input position) precisely when
`head_size = embedding_dim`; under that precondition the shape-mismatch
failure is unreachable. -/
theorem lm_head_dim_iff (P : Prims) (m : TransformerLanguageModel) (idx : List Nat)
    (hv : ∀ tok ∈ idx, tok < m.vocab_size) (hT : idx.length ≤ m.block_size) :
    ((∃ lg, m.forward P idx = .ok lg ∧ lg.length = idx.length) ↔
      m.head_size = m.embedding_dim) ∧
    (m.head_size = m.embedding_dim → m.forward P idx ≠ .error .shapeMismatch) := by
  constructor
  · constructor
    · rintro ⟨lg, hok, -⟩
      exact (TransformerLanguageModel.forward_ok_inv hok).2.2.2.symm
    · intro hdim
      exact ⟨_, TransformerLanguageModel.forward_eq_ok P m hv hT hdim.symm,
        TransformerLanguageModel.length_logitsOf P m idx⟩
  · intro hdim hcontra
    rw [TransformerLanguageModel.forward_eq_ok P m hv hT hdim.symm] at hcontra
    simp at hcontra

theorem lm_head_dim_witness :
    ((∀ tok ∈ ([0, 0] : List Nat), tok < modelW.vocab_size) ∧
      ([0, 0] : List Nat).length ≤ modelW.block_size) ∧
    (((∃ lg, modelW.forward primsW [0, 0] = .ok lg ∧ lg.length = ([0, 0] : List Nat).length) ↔
        modelW.head_size = modelW.embedding_dim) ∧
      (modelW.head_size = modelW.embedding_dim →
        modelW.forward primsW [0, 0] ≠ .error .shapeMismatch)) :=
  ⟨⟨by decide, by decide⟩, lm_head_dim_iff primsW modelW [0, 0] (by decide) (by decide)⟩

/-! ## C3: train/eval mode around `generate` -/

/-- C3 counterexample: `generate` does not restore the prior mode. A
caller whose model is in eval mode gets it back in train mode (shown here
on a successful zero-step generation; the final `self.train()` runs
unconditionally on the normal path). -/
theorem generate_mode_not_restored :
    (modelW.generate primsW (fun _ _ _ => 0) .eval [[0]] 0).2 = .ok [[0]] ∧
      (modelW.generate primsW (fun _ _ _ => 0) .eval [[0]] 0).1 ≠ .eval :=
  ⟨rfl, by decide⟩

/-- C3 amended: whenever `generate` completes normally it leaves the model
in train mode, whatever the prior mode was — so the prior mode is
"restored" only when it was train; and on an error exit the model stays in
eval mode. -/
theorem generate_mode_after (P : Prims) (m : TransformerLanguageModel)
    (sampler : Nat → Nat → (Nat → ℚ) → Nat) (priorMode : TransformerLanguageModel.Mode)
    (idx : List (List Nat)) (nNew : Nat) :
    (∀ out, (m.generate P sampler priorMode idx nNew).2 = .ok out →
      (m.generate P sampler priorMode idx nNew).1 = .train) ∧
    (∀ e, (m.generate P sampler priorMode idx nNew).2 = .error e →
      (m.generate P sampler priorMode idx nNew).1 = .eval) := by
  rw [TransformerLanguageModel.generate]
  cases TransformerLanguageModel.generateGo P m sampler 0 nNew idx with
  | ok o => exact ⟨fun _ _ => rfl, fun e he => by simp at he⟩
  | error e2 => exact ⟨fun o ho => by simp at ho, fun _ _ => rfl⟩

theorem generate_mode_after_witness :
    (modelW.generate primsW (fun _ _ _ => 0) .eval [[0]] 0).2 = .ok [[0]] ∧
      (modelW.generate primsW (fun _ _ _ => 0) .eval [[0]] 0).1 = .train :=
  ⟨rfl,
    (generate_mode_after primsW modelW (fun _ _ _ => 0) .eval [[0]] 0).1 [[0]] rfl⟩

/-! ## C2: shape and prefix behaviour of `generate` -/

theorem nextTokenRow_eq_ok (P : Prims) (m : TransformerLanguageModel)
    (sampler : Nat → Nat → (Nat → ℚ) → Nat) (step row : Nat) {r : List Nat}
    (hne : r ≠ []) (hv : ∀ tok ∈ r, tok < m.vocab_size)
    (hbs : 1 ≤ m.block_size) (hdim : m.embedding_dim = m.head_size)
    (hsamp : ∀ s r2 v, sampler s r2 v < m.vocab_size) :
    ∃ tok, tok < m.vocab_size ∧
      m.nextTokenRow P sampler step row r = .ok (r ++ [tok]) := by
  have hrlen : 1 ≤ r.length := List.length_pos.mpr hne
  have hvc : ∀ tok ∈ r.drop (r.length - m.block_size), tok < m.vocab_size :=
    fun tok htok => hv tok (List.mem_of_mem_drop htok)
  have hclen : (r.drop (r.length - m.block_size)).length =
      r.length - (r.length - m.block_size) := List.length_drop _ _
  have hfwd := TransformerLanguageModel.forward_eq_ok P m hvc (by omega) hdim
  have hloglen := TransformerLanguageModel.length_logitsOf P m
    (r.drop (r.length - m.block_size))
  have hlast : (m.logitsOf P (r.drop (r.length - m.block_size))).getLast?.isSome := by
    rw [List.getLast?_isSome]
    intro hnil
    rw [hnil] at hloglen
    simp at hloglen
    omega
  obtain ⟨last, hlasteq⟩ := Option.isSome_iff_exists.mp hlast
  refine ⟨sampler step row (TransformerLanguageModel.softmaxDist P m.vocab_size last),
    hsamp _ _ _, ?_⟩
  rw [TransformerLanguageModel.nextTokenRow, hfwd]
  simp only [hlasteq]

theorem stepRows_eq_ok (P : Prims) (m : TransformerLanguageModel)
    (sampler : Nat → Nat → (Nat → ℚ) → Nat) (step : Nat)
    (hbs : 1 ≤ m.block_size) (hdim : m.embedding_dim = m.head_size)
    (hsamp : ∀ s r2 v, sampler s r2 v < m.vocab_size) :
    ∀ (rows : List (List Nat)) (row0 : Nat),
    (∀ r ∈ rows, r ≠ [] ∧ ∀ tok ∈ r, tok < m.vocab_size) →
    ∃ out, m.stepRows P sampler step row0 rows = .ok out ∧
      out.length = rows.length ∧
      ∀ k, k < rows.length → ∃ tok, tok < m.vocab_size ∧
        out.getD k [] = rows.getD k [] ++ [tok] := by
  intro rows
  induction rows with
  | nil =>
    intro row0 _
    exact ⟨[], rfl, rfl, fun k hk => absurd hk (by simp)⟩
  | cons r rest ih =>
    intro row0 hval
    obtain ⟨hne, hv⟩ := hval r (by simp)
    obtain ⟨tok, htok, hrow⟩ := nextTokenRow_eq_ok P m sampler step row0 hne hv hbs hdim hsamp
    obtain ⟨out2, hout2, hlen2, hfacts⟩ :=
      ih (row0 + 1) (fun r2 hr2 => hval r2 (by simp [hr2]))
    refine ⟨(r ++ [tok]) :: out2, ?_, by simp [hlen2], ?_⟩
    · rw [TransformerLanguageModel.stepRows, hrow, hout2]
    · intro k hk
      cases k with
      | zero => exact ⟨tok, htok, rfl⟩
      | succ k =>
        obtain ⟨tok2, ht2, he2⟩ := hfacts k (by simpa using hk)
        exact ⟨tok2, ht2, by simpa using he2⟩

theorem generateGo_eq_ok (P : Prims) (m : TransformerLanguageModel)
    (sampler : Nat → Nat → (Nat → ℚ) → Nat)
    (hbs : 1 ≤ m.block_size) (hdim : m.embedding_dim = m.head_size)
    (hsamp : ∀ s r2 v, sampler s r2 v < m.vocab_size) :
    ∀ (n step : Nat) (rows : List (List Nat)),
    (∀ r ∈ rows, r ≠ [] ∧ ∀ tok ∈ r, tok < m.vocab_size) →
    ∃ out, TransformerLanguageModel.generateGo P m sampler step n rows = .ok out ∧
      out.length = rows.length ∧
      ∀ k, k < rows.length → ∃ ext, ext.length = n ∧
        out.getD k [] = rows.getD k [] ++ ext := by
  intro n
  induction n with
  | zero =>
    intro step rows hval
    exact ⟨rows, rfl, rfl, fun k hk => ⟨[], rfl, by simp⟩⟩
  | succ n ih =>
    intro step rows hval
    obtain ⟨rows2, hrows2, hlen2, hfacts2⟩ :=
      stepRows_eq_ok P m sampler step hbs hdim hsamp rows 0 hval
    have hval2 : ∀ r ∈ rows2, r ≠ [] ∧ ∀ tok ∈ r, tok < m.vocab_size := by
      intro r hr
      obtain ⟨k, hk, hkr⟩ := List.getElem_of_mem hr
      have hklt : k < rows.length := by omega
      obtain ⟨tok, htok, hrow⟩ := hfacts2 k hklt
      have hreq : r = rows.getD k [] ++ [tok] := by
        rw [← hkr, ← hrow, List.getD_eq_getElem _ _ hk]
      subst hreq
      constructor
      · simp
      · intro tok2 htok2
        rw [List.mem_append] at htok2
        rcases htok2 with h2 | h2
        · refine (hval (rows.getD k []) ?_).2 tok2 h2
          rw [List.getD_eq_getElem _ _ hklt]
          exact List.getElem_mem _
        · rw [List.mem_singleton] at h2
          exact h2 ▸ htok
    obtain ⟨out, hout, hlen3, hfacts3⟩ := ih (step + 1) rows2 hval2
    refine ⟨out, ?_, by omega, ?_⟩
    · rw [TransformerLanguageModel.generateGo, hrows2]
      exact hout
    · intro k hk
      obtain ⟨tok, htok, hrow⟩ := hfacts2 k hk
      obtain ⟨ext, hextlen, hexteq⟩ := hfacts3 k (by omega)
      refine ⟨tok :: ext, by simp [hextlen], ?_⟩
      rw [hexteq, hrow, List.append_assoc]
      rfl

/-- C2: for every seed batch and every requested count `N ≥ 0` (any
sampler, so in particular also when `END` tokens are sampled), `generate`
succeeds, performs exactly `N` sampling steps appending one token per
step, and returns each row as its untouched seed followed by `N` new
tokens. Preconditions: a well-formed model (`block_size ≥ 1`,
`head_size = embedding_dim`), nonempty seed rows of in-range ids, and a
sampler drawing in-range ids (as `torch.multinomial` does). -/
theorem generate_shape_and_prefix (P : Prims) (m : TransformerLanguageModel)
    (sampler : Nat → Nat → (Nat → ℚ) → Nat)
    (priorMode : TransformerLanguageModel.Mode)
    (idx : List (List Nat)) (nNew : Nat)
    (hbs : 1 ≤ m.block_size) (hdim : m.embedding_dim = m.head_size)
    (hrows : ∀ r ∈ idx, r ≠ [] ∧ ∀ tok ∈ r, tok < m.vocab_size)
    (hsamp : ∀ s r2 v, sampler s r2 v < m.vocab_size) :
    ∃ out, (m.generate P sampler priorMode idx nNew).2 = .ok out ∧
      out.length = idx.length ∧
      ∀ k, k < idx.length →
        (out.getD k []).length = (idx.getD k []).length + nNew ∧
        (out.getD k []).take (idx.getD k []).length = idx.getD k [] := by
  obtain ⟨out, hgo, hlen, hfacts⟩ :=
    generateGo_eq_ok P m sampler hbs hdim hsamp nNew 0 idx hrows
  refine ⟨out, ?_, hlen, ?_⟩
  · rw [TransformerLanguageModel.generate, hgo]
  · intro k hk
    obtain ⟨ext, hextlen, hexteq⟩ := hfacts k hk
    rw [hexteq]
    exact ⟨by simp [hextlen], List.take_left _ _⟩

theorem generate_shape_and_prefix_witness :
    (1 ≤ modelW.block_size ∧ modelW.embedding_dim = modelW.head_size ∧
      (∀ r ∈ ([[0], [0, 0]] : List (List Nat)), r ≠ [] ∧
        ∀ tok ∈ r, tok < modelW.vocab_size) ∧
      (∀ (s r2 : Nat) (v : Nat → ℚ),
        (fun (_ : Nat) (_ : Nat) (_ : Nat → ℚ) => (0 : Nat)) s r2 v < modelW.vocab_size)) ∧
    (∃ out, (modelW.generate primsW (fun _ _ _ => 0) .train [[0], [0, 0]] 2).2 = .ok out ∧
      out.length = ([[0], [0, 0]] : List (List Nat)).length ∧
      ∀ k, k < ([[0], [0, 0]] : List (List Nat)).length →
        (out.getD k []).length = (([[0], [0, 0]] : List (List Nat)).getD k []).length + 2 ∧
        (out.getD k []).take (([[0], [0, 0]] : List (List Nat)).getD k []).length =
          ([[0], [0, 0]] : List (List Nat)).getD k []) :=
  ⟨⟨by decide, by decide, by decide, fun _ _ _ => Nat.zero_lt_one⟩,
    generate_shape_and_prefix primsW modelW (fun _ _ _ => 0) .train [[0], [0, 0]] 2
      (by decide) (by decide) (by decide) (fun _ _ _ => Nat.zero_lt_one)⟩

/-! ## C1: causality -/

theorem seqGetD_range_map {n j : Nat} (f : Nat → Nat → ℚ) (hj : j < n) :
    seqGetD ((List.range n).map f) j = f j :=
  getD_range_map f zeroVec hj

theorem seqGetD_range_map_ge {n j : Nat} (f : Nat → Nat → ℚ) (hj : n ≤ j) :
    seqGetD ((List.range n).map f) j = zeroVec :=
  getD_range_map_ge f zeroVec hj

theorem seqGetD_map_congr (g : (Nat → ℚ) → Nat → ℚ) {x y : List (Nat → ℚ)}
    (hlen : x.length = y.length) {t : Nat}
    (hag : ∀ j, j ≤ t → seqGetD x j = seqGetD y j) :
    ∀ j, j ≤ t → seqGetD (x.map g) j = seqGetD (y.map g) j := by
  intro j hj
  rcases Nat.lt_or_ge j x.length with hlt | hge
  · rw [seqGetD, seqGetD, getD_map_of_lt g x zeroVec zeroVec hlt,
      getD_map_of_lt g y zeroVec zeroVec (by omega)]
    rw [show x.getD j zeroVec = seqGetD x j from rfl,
      show y.getD j zeroVec = seqGetD y j from rfl, hag j hj]
  · rw [seqGetD, seqGetD, List.getD_eq_default _ _ (by simp only [List.length_map]; omega),
      List.getD_eq_default _ _ (by simp only [List.length_map]; omega)]

theorem seqGetD_addSeq (x y : List (Nat → ℚ)) (j : Nat) :
    seqGetD (addSeq x y) j =
      if j < min x.length y.length then (fun i => seqGetD x j i + seqGetD y j i)
      else zeroVec := by
  rcases Nat.lt_or_ge j (min x.length y.length) with hlt | hge
  · have hj1 : j < x.length := by omega
    have hj2 : j < y.length := by omega
    have hj3 : j < (addSeq x y).length := by rw [length_addSeq]; omega
    have hz : seqGetD (addSeq x y) j = fun i => x[j] i + y[j] i := by
      rw [seqGetD, List.getD_eq_getElem _ _ hj3]
      exact List.getElem_zipWith
    rw [if_pos hlt, hz]
    funext i
    rw [seqGetD, seqGetD, List.getD_eq_getElem _ _ hj1, List.getD_eq_getElem _ _ hj2]
  · rw [if_neg (by omega), seqGetD,
      List.getD_eq_default _ _ (by rw [length_addSeq]; omega)]

theorem addSeq_congr {x y x2 y2 : List (Nat → ℚ)} (hlen : x.length = y.length)
    (hlen2 : x2.length = y2.length) {t : Nat}
    (hag : ∀ j, j ≤ t → seqGetD x j = seqGetD y j)
    (hag2 : ∀ j, j ≤ t → seqGetD x2 j = seqGetD y2 j) :
    ∀ j, j ≤ t → seqGetD (addSeq x x2) j = seqGetD (addSeq y y2) j := by
  intro j hj
  rw [seqGetD_addSeq, seqGetD_addSeq, hlen, hlen2, hag j hj, hag2 j hj]

/-- Causality of one attention layer at query position `u ≤ t`: the
output at `u` only reads the input at positions `≤ t`, because every
weight at a key position `j > u` is the masked `0` and the softmax
normalizes over positions `≤ u` only. -/
theorem MultiHeadAttention.outAt_congr (P : Prims) (sa : MultiHeadAttention)
    {x y : List (Nat → ℚ)} {t : Nat} (hlen : x.length = y.length)
    (hag : ∀ j, j ≤ t → seqGetD x j = seqGetD y j) {u : Nat} (hu : u ≤ t) :
    MultiHeadAttention.outAt P sa x u = MultiHeadAttention.outAt P sa y u := by
  have hk : ∀ j, j ≤ t → kseq sa x j = kseq sa y j := by
    intro j hj
    rw [kseq, kseq, hag j hj]
  have hq : ∀ j, j ≤ t → qseq sa x j = qseq sa y j := by
    intro j hj
    rw [qseq, qseq, hag j hj]
  have hv : ∀ j, j ≤ t → vseq sa x j = vseq sa y j := by
    intro j hj
    rw [vseq, vseq, hag j hj]
  have hscore : ∀ i j, j ≤ t → score P sa x i u j = score P sa y i u j := by
    intro i j hj
    rw [score, score, hq u hu, hk j hj]
  have hweight : ∀ i j, weight P sa x i u j = weight P sa y i u j := by
    intro i j
    rcases le_or_lt j u with hj | hj
    · rw [weight, weight, if_pos hj, if_pos hj, hscore i j (le_trans hj hu), hlen]
      congr 1
      apply Finset.sum_congr rfl
      intro j2 hj2
      rw [Finset.mem_filter] at hj2
      rw [hscore i j2 (le_trans hj2.2 hu)]
    · rw [weight, weight, if_neg (by omega), if_neg (by omega)]
  have hco : concatOut P sa x u = concatOut P sa y u := by
    funext mm
    rw [concatOut, concatOut, headOut, headOut, hlen]
    apply Finset.sum_congr rfl
    intro j hjmem
    rcases le_or_lt j u with hj | hj
    · rw [hweight, hv j (le_trans hj hu)]
    · rw [weight, weight, if_neg (by omega), if_neg (by omega), zero_mul, zero_mul]
  rw [outAt, outAt, hco]

theorem mha_forward_congr (P : Prims) (sa : MultiHeadAttention)
    {x y : List (Nat → ℚ)} {t : Nat} (hlen : x.length = y.length)
    (hag : ∀ j, j ≤ t → seqGetD x j = seqGetD y j) :
    ∀ j, j ≤ t → seqGetD (sa.forward P x) j = seqGetD (sa.forward P y) j := by
  intro j hj
  rw [MultiHeadAttention.forward, MultiHeadAttention.forward]
  rcases Nat.lt_or_ge j x.length with hlt | hge
  · rw [seqGetD_range_map _ hlt, seqGetD_range_map _ (by omega)]
    exact MultiHeadAttention.outAt_congr P sa hlen hag hj
  · rw [seqGetD_range_map_ge _ (by omega), seqGetD_range_map_ge _ (by omega)]

theorem block_forward_congr (P : Prims) (b : TransformerBlock)
    {x y : List (Nat → ℚ)} {t : Nat} (hlen : x.length = y.length)
    (hag : ∀ j, j ≤ t → seqGetD x j = seqGetD y j) :
    ∀ j, j ≤ t → seqGetD (b.forward P x) j = seqGetD (b.forward P y) j := by
  have hmhalen : ∀ z : List (Nat → ℚ),
      (b.sa.forward P (z.map (layerNorm P b.embedding_dim b.ln1))).length = z.length := by
    intro z
    rw [length_mha_forward, List.length_map]
  have hx1len : ∀ z : List (Nat → ℚ),
      (addSeq z (b.sa.forward P (z.map (layerNorm P b.embedding_dim b.ln1)))).length
        = z.length := by
    intro z
    rw [length_addSeq, hmhalen, Nat.min_self]
  have hln1 := seqGetD_map_congr (layerNorm P b.embedding_dim b.ln1) hlen hag
  have hmha := mha_forward_congr P b.sa
    (by rw [List.length_map, List.length_map, hlen]) hln1
  have hx1 := addSeq_congr hlen (by rw [hmhalen, hmhalen, hlen]) hag hmha
  have hff := seqGetD_map_congr
    (fun v => b.ff.forward (layerNorm P b.embedding_dim b.ln2 v))
    (by rw [hx1len, hx1len, hlen]) hx1
  have hfin := addSeq_congr (x := addSeq x _) (y := addSeq y _)
    (by rw [hx1len, hx1len, hlen])
    (by rw [List.length_map, List.length_map, hx1len, hx1len, hlen]) hx1 hff
  intro j hj
  exact hfin j hj

theorem runBlocks_congr (P : Prims) (blocks : List TransformerBlock) {t : Nat} :
    ∀ {x y : List (Nat → ℚ)}, x.length = y.length →
    (∀ j, j ≤ t → seqGetD x j = seqGetD y j) →
    ∀ j, j ≤ t → seqGetD (runBlocks P blocks x) j = seqGetD (runBlocks P blocks y) j := by
  induction blocks with
  | nil =>
    intro x y hlen hag
    exact hag
  | cons b rest ih =>
    intro x y hlen hag
    exact ih
      (by rw [length_block_forward, length_block_forward, hlen])
      (block_forward_congr P b hlen hag)

theorem TransformerLanguageModel.embedSeq_congr (m : TransformerLanguageModel)
    {idx idx2 : List Nat} (hlen : idx.length = idx2.length) {t : Nat}
    (hag : ∀ j, j ≤ t → idx.getD j 0 = idx2.getD j 0) :
    ∀ j, j ≤ t → seqGetD (m.embedSeq idx) j = seqGetD (m.embedSeq idx2) j := by
  intro j hj
  rw [embedSeq, embedSeq]
  rcases Nat.lt_or_ge j idx.length with hlt | hge
  · rw [seqGetD_range_map _ hlt, seqGetD_range_map _ (by omega), hag j hj]
  · rw [seqGetD_range_map_ge _ (by omega), seqGetD_range_map_ge _ (by omega)]

/-- C1: causality of the model in eval mode. (i) For the attention layer:
two equal-length inputs that agree at every position `≤ t` produce the
same attention output at position `t`, so perturbing any input position
`t+k` with `k > 0` never changes the output at `t`. (ii) Transitively for
the whole model: two equal-length token inputs agreeing at positions
`≤ t` give identical logits and an identical softmax probability
distribution at position `t`. -/
theorem causal_masking (P : Prims) (sa : MultiHeadAttention)
    (m : TransformerLanguageModel) (t : Nat) :
    (∀ x y : List (Nat → ℚ), x.length = y.length →
      (∀ j, j ≤ t → seqGetD x j = seqGetD y j) →
      seqGetD (sa.forward P x) t = seqGetD (sa.forward P y) t) ∧
    (∀ idx idx2 : List Nat, ∀ lg lg2 : List (Nat → ℚ),
      idx.length = idx2.length →
      (∀ j, j ≤ t → idx.getD j 0 = idx2.getD j 0) →
      m.forward P idx = .ok lg → m.forward P idx2 = .ok lg2 →
      seqGetD lg t = seqGetD lg2 t ∧
        TransformerLanguageModel.softmaxDist P m.vocab_size (seqGetD lg t) =
          TransformerLanguageModel.softmaxDist P m.vocab_size (seqGetD lg2 t)) := by
  constructor
  · intro x y hlen hag
    exact mha_forward_congr P sa hlen hag t le_rfl
  · intro idx idx2 lg lg2 hlen hag hok hok2
    obtain ⟨hlg, -, -, -⟩ := TransformerLanguageModel.forward_ok_inv hok
    obtain ⟨hlg2, -, -, -⟩ := TransformerLanguageModel.forward_ok_inv hok2
    subst hlg hlg2
    have hemb := TransformerLanguageModel.embedSeq_congr m hlen hag
    have hemblen : (m.embedSeq idx).length = (m.embedSeq idx2).length := by
      rw [TransformerLanguageModel.length_embedSeq,
        TransformerLanguageModel.length_embedSeq, hlen]
    have hrb := runBlocks_congr P m.blocks hemblen hemb
    have hrblen : (runBlocks P m.blocks (m.embedSeq idx)).length =
        (runBlocks P m.blocks (m.embedSeq idx2)).length := by
      rw [length_runBlocks, length_runBlocks, hemblen]
    have hln := seqGetD_map_congr (layerNorm P m.embedding_dim m.ln_f) hrblen hrb
    have hlnlen : ((runBlocks P m.blocks (m.embedSeq idx)).map
        (layerNorm P m.embedding_dim m.ln_f)).length =
        ((runBlocks P m.blocks (m.embedSeq idx2)).map
          (layerNorm P m.embedding_dim m.ln_f)).length := by
      rw [List.length_map, List.length_map, hrblen]
    have hfin := seqGetD_map_congr (linear m.lm_headW m.lm_headB m.head_size) hlnlen hln
    have hmain := hfin t le_rfl
    exact ⟨hmain, congrArg _ hmain⟩

theorem causal_masking_witness :
    ((cW1 = cW1) ∧ ([0, 0] : List Nat).length = ([0, 1] : List Nat).length ∧
      modelW2.forward primsW [0, 0] = .ok lgW1 ∧
      modelW2.forward primsW [0, 1] = .ok lgW2) ∧
    (seqGetD (saW.forward primsW [cW1, cW2]) 0 = seqGetD (saW.forward primsW [cW1, cW3]) 0 ∧
      seqGetD lgW1 0 = seqGetD lgW2 0) :=
  ⟨⟨rfl, rfl, rfl, rfl⟩,
    (causal_masking primsW saW modelW2 0).1 [cW1, cW2] [cW1, cW3] rfl
      (fun j hj => by
        have hj0 : j = 0 := Nat.le_zero.mp hj
        subst hj0
        rfl),
    ((causal_masking primsW saW modelW2 0).2 [0, 0] [0, 1] lgW1 lgW2 rfl
      (fun j hj => by
        have hj0 : j = 0 := Nat.le_zero.mp hj
        subst hj0
        rfl) rfl rfl).1⟩

end GPTAdder
